import Mathlib

/-!
Verification of the concurrency-guarded authorization enforcer
(`libs/access-control/src/casbin/enforcer.rs`).

Shallow embedding conventions:
* durations are natural numbers of milliseconds (the retry configuration is
  built with `Duration::from_millis` / `from_secs`, and the jitter arithmetic
  works on `as_millis` values);
* real time and lock contention are nondeterministic, so each operation is
  parametrised by oracles: `elapsed i` is the elapsed time observed at the
  start of retry attempt `i`, `tryWrite i` is the outcome of the non-blocking
  `try_write` on attempt `i`, and `engineFail` says whether the engine call
  performed under the exclusive lock fails;
* the external casbin engine (out of the provided sources) is modelled from
  the spec's interface contract in section 6.2;
* Rust's indexing `p[POLICY_FIELD_INDEX_SUBJECT]`, which aborts on an
  out-of-bounds index, is modelled with `Option` (`none` = abort).
-/

namespace AccessControl

/-- `RetryConfig` from enforcer.rs; all durations in milliseconds. -/
structure RetryConfig where
  initial_delay : Nat
  max_delay : Nat
  max_retries : Nat
  timeout : Nat
deriving DecidableEq, Repr

/-- `RetryConfig::default()`: 10ms initial delay, 1000ms cap, 10 retries, 5s timeout. -/
def RetryConfig.default : RetryConfig :=
  { initial_delay := 10, max_delay := 1000, max_retries := 10, timeout := 5000 }

/-- One `sleep(actual_delay)` performed by the retry loop: the attempt index it
followed, the nominal `delay` value at that point, and the actual slept duration. -/
structure SleepEvent where
  attempt : Nat
  nominal : Nat
  actual : Nat
deriving DecidableEq, Repr

/-- Exit paths of `retry_write_with_config`: acquired the guard at a given attempt,
returned the timeout `RetryLater` error at a given attempt, or fell out of the
loop (`RetryLater` "Please try again later"). -/
inductive RetryResult where
  | acquired (attempt : Nat)
  | timedOut (attempt : Nat)
  | exhausted
deriving DecidableEq, Repr

/-- `let jitter_ms = delay.as_millis() as u64 / 10;` — the `as u64` cast truncates
modulo 2^64. -/
def jitterMs (delay : Nat) : Nat :=
  delay % 2 ^ 64 / 10

/-- `Duration::from_millis((attempt as u64 * 17) % (jitter_ms.max(1) * 2))`,
with the u64 multiplication wrapping modulo 2^64. -/
def jitter (delay attempt : Nat) : Nat :=
  attempt * 17 % 2 ^ 64 % (max (jitterMs delay) 1 * 2)

/-- The body of the `for attempt in 0..max_retries` loop of
`retry_write_with_config`, by recursion on the remaining iteration count.
Returns the exit path together with the list of sleeps performed.
`delay.saturating_mul(2)` is `delay * 2` on `Nat` (no overflow; the saturation
point of a Rust `Duration` is unreachable from millisecond configurations). -/
def retryGo (cfg : RetryConfig) (elapsed : Nat → Nat) (tryWrite : Nat → Bool) :
    Nat → Nat → Nat → RetryResult × List SleepEvent
  | 0, _, _ => (.exhausted, [])
  | remaining + 1, attempt, delay =>
    if cfg.timeout ≤ elapsed attempt then
      (.timedOut attempt, [])
    else if tryWrite attempt then
      (.acquired attempt, [])
    else if attempt < cfg.max_retries - 1 then
      let actual_delay := delay + jitter delay attempt
      let next := retryGo cfg elapsed tryWrite remaining (attempt + 1)
        (min (delay * 2) cfg.max_delay)
      (next.1, ⟨attempt, delay, actual_delay⟩ :: next.2)
    else
      retryGo cfg elapsed tryWrite remaining (attempt + 1) delay

/-- `AFEnforcer::retry_write_with_config`. -/
def retry_write_with_config (cfg : RetryConfig) (elapsed : Nat → Nat)
    (tryWrite : Nat → Bool) : RetryResult × List SleepEvent :=
  retryGo cfg elapsed tryWrite cfg.max_retries 0 cfg.initial_delay

/-- The error kind of the two exclusive-lock error codes: `AppError` distinguishes
only the transient `RetryLater` kind from the non-retryable `Internal` kind. -/
inductive AppError where
  | RetryLater
  | Internal
deriving DecidableEq, Repr

/-- The value `retry_write_with_config` actually returns to its caller
(guard on success, `AppError::RetryLater` on either exhaustion path). -/
def RetryResult.toResult : RetryResult → Except AppError Unit
  | .acquired _ => .ok ()
  | .timedOut _ => .error .RetryLater
  | .exhausted => .error .RetryLater

/-- `SubjectType` (entity.rs, not in the provided sources): `User(i64)` is the
only observed variant. -/
inductive SubjectType where
  | User (uid : Int)
deriving DecidableEq, Repr

/-- `ObjectType` (entity.rs, not in the provided sources). -/
inductive ObjectType where
  | Workspace (id : String)
  | Collab (id : String)
deriving DecidableEq, Repr

/-- Modelled from the spec: `SubjectType::policy_subject` (entity.rs is not in
the provided sources) — "a stable textual encoding of the user id". -/
def SubjectType.policy_subject : SubjectType → String
  | .User uid => toString uid

/-- Modelled from the spec: `ObjectType::policy_object` (entity.rs is not in the
provided sources) — "maps to a policy-object string that also encodes its kind". -/
def ObjectType.policy_object : ObjectType → String
  | .Workspace id => "workspace::" ++ id
  | .Collab id => "collab::" ++ id

/-- Raw actions (act.rs, not in the provided sources). -/
inductive Action where
  | Read
  | Write
  | Delete
deriving DecidableEq, Repr

/-- Workspace roles, ordered `Owner > Member > Guest` (spec section 3). -/
inductive AFRole where
  | Owner
  | Member
  | Guest
deriving DecidableEq, Repr

/-- Access levels, ordered `FullAccess > ReadAndWrite > ReadAndComment > ReadOnly`
(spec section 3). -/
inductive AFAccessLevel where
  | ReadOnly
  | ReadAndComment
  | ReadAndWrite
  | FullAccess
deriving DecidableEq, Repr

/-- Modelled from the spec: the stable policy-action string encoding of a raw
action (act.rs is not in the provided sources). -/
def Action.policy_act : Action → String
  | .Read => "read"
  | .Write => "write"
  | .Delete => "delete"

/-- Modelled from the spec: the stable policy-action string encoding of a role. -/
def AFRole.policy_act : AFRole → String
  | .Owner => "role:owner"
  | .Member => "role:member"
  | .Guest => "role:guest"

/-- Modelled from the spec: the stable policy-action string encoding of a level. -/
def AFAccessLevel.policy_act : AFAccessLevel → String
  | .ReadOnly => "level:read-only"
  | .ReadAndComment => "level:read-and-comment"
  | .ReadAndWrite => "level:read-and-write"
  | .FullAccess => "level:full-access"

/-- The `Acts` trait (act.rs, not in the provided sources): `policy_acts` is the
capability expansion used when storing a policy, `to_enforce_act` the single
action string used in an enforcement request. -/
class Acts (α : Type) where
  policy_acts : α → List String
  to_enforce_act : α → String

instance : Acts Action := ⟨fun a => [a.policy_act], Action.policy_act⟩

instance : Acts AFRole := ⟨fun r => [r.policy_act], AFRole.policy_act⟩

instance : Acts AFAccessLevel := ⟨fun l => [l.policy_act], AFAccessLevel.policy_act⟩

/-- Decode a stored/requested action string back to a raw action, if it is one. -/
def decodeAction (s : String) : Option Action :=
  if s = "read" then some .Read
  else if s = "write" then some .Write
  else if s = "delete" then some .Delete
  else none

/-- Decode a stored/requested action string back to a role, if it is one. -/
def decodeRole (s : String) : Option AFRole :=
  if s = "role:owner" then some .Owner
  else if s = "role:member" then some .Member
  else if s = "role:guest" then some .Guest
  else none

/-- Decode a stored/requested action string back to an access level, if it is one. -/
def decodeLevel (s : String) : Option AFAccessLevel :=
  if s = "level:read-only" then some .ReadOnly
  else if s = "level:read-and-comment" then some .ReadAndComment
  else if s = "level:read-and-write" then some .ReadAndWrite
  else if s = "level:full-access" then some .FullAccess
  else none

/-- Rank in the role hierarchy `Owner > Member > Guest`. -/
def AFRole.rank : AFRole → Nat
  | .Owner => 3
  | .Member => 2
  | .Guest => 1

/-- Rank in the level hierarchy `FullAccess > ReadAndWrite > ReadAndComment > ReadOnly`. -/
def AFAccessLevel.rank : AFAccessLevel → Nat
  | .ReadOnly => 1
  | .ReadAndComment => 2
  | .ReadAndWrite => 3
  | .FullAccess => 4

/-- Modelled from the spec: a role's raw-action capability mapping — a `Member`
"implies `Write` and `Read` but not `Delete`" (spec section 3). -/
def AFRole.grantsAction : AFRole → Action → Bool
  | .Owner, _ => true
  | .Member, .Read => true
  | .Member, .Write => true
  | .Member, .Delete => false
  | .Guest, .Read => true
  | .Guest, _ => false

/-- Modelled from the spec: the access level a role grants — a role "implies
every access level at or below the level the role grants, but not `FullAccess`"
for `Member` (spec section 3). -/
def AFRole.grantedLevel : AFRole → AFAccessLevel
  | .Owner => .FullAccess
  | .Member => .ReadAndWrite
  | .Guest => .ReadOnly

/-- Modelled from the spec: the raw actions an access level itself allows. -/
def AFAccessLevel.grantsAction : AFAccessLevel → Action → Bool
  | .ReadOnly, .Read => true
  | .ReadOnly, _ => false
  | .ReadAndComment, .Read => true
  | .ReadAndComment, _ => false
  | .ReadAndWrite, .Delete => false
  | .ReadAndWrite, _ => true
  | .FullAccess, _ => true

/-- Modelled from the spec: the matcher's hierarchy comparison `cmpRoleOrLevel`
(access.rs is not in the provided sources) — decides whether the stored action
string implies the requested one under the role/level ordering. -/
def cmp_role_or_level (stored requested : String) : Bool :=
  match decodeRole stored with
  | some r =>
    match decodeRole requested with
    | some r2 => decide (r2.rank ≤ r.rank)
    | none =>
      match decodeLevel requested with
      | some l => decide (l.rank ≤ r.grantedLevel.rank)
      | none =>
        match decodeAction requested with
        | some a => r.grantsAction a
        | none => false
  | none =>
    match decodeLevel stored with
    | some lv =>
      match decodeLevel requested with
      | some l2 => decide (l2.rank ≤ lv.rank)
      | none =>
        match decodeAction requested with
        | some a => lv.grantsAction a
        | none => false
    | none =>
      match decodeAction stored with
      | some a => decide (requested = a.policy_act)
      | none => false

/-- A policy tuple `[subject, object, action]` as stored by the engine. -/
abbrev PolicyTuple := List String

/-- `POLICY_FIELD_INDEX_SUBJECT` — modelled from the spec: "index 0 = subject"
(access.rs is not in the provided sources). -/
def POLICY_FIELD_INDEX_SUBJECT : Nat := 0

/-- `POLICY_FIELD_INDEX_OBJECT` — modelled from the spec: "index 1 = object". -/
def POLICY_FIELD_INDEX_OBJECT : Nat := 1

/-- The external matching engine's policy store (the engine is out of the
provided sources; modelled from the spec's interface contract). -/
structure Engine where
  policies : List PolicyTuple
deriving DecidableEq, Repr

/-- Insert one tuple into the store; inserting an existing tuple is a no-op. -/
def insertTuple (acc : List PolicyTuple) (t : PolicyTuple) : List PolicyTuple :=
  if t ∈ acc then acc else acc ++ [t]

/-- Modelled from the spec: `add_policy_tuples` — "inserts tuples; duplicate
insertion is not an error" and "adding an existing tuple is a no-op". -/
def Engine.add_policies (e : Engine) (ts : List PolicyTuple) : Engine :=
  ⟨ts.foldl insertTuple e.policies⟩

/-- Modelled from the spec: `remove_policy_tuples` — "removes exactly the given
tuples; removing a non-existent tuple is not an error". -/
def Engine.remove_policies (e : Engine) (ts : List PolicyTuple) : Engine :=
  ⟨e.policies.filter (fun p => decide (p ∉ ts))⟩

/-- Modelled from the spec: `get_filtered_policy` at a field index — "returns
all stored tuples whose object field equals `object_id`" when called with the
object index. -/
def Engine.get_filtered_policy (e : Engine) (fieldIndex : Nat) (value : String) :
    List PolicyTuple :=
  e.policies.filter (fun p => p.get? fieldIndex == some value)

/-- Modelled from the spec: the engine's `evaluate` — a request `[s, o, a]` is
permitted iff some stored tuple has subject `s`, object `o`, and a stored action
that implies `a` under `cmpRoleOrLevel`. -/
def Engine.enforce (e : Engine) (request : PolicyTuple) : Bool :=
  match request with
  | [s, o, a] =>
    e.policies.any (fun p =>
      match p with
      | [ps, po, pa] => ps == s && po == o && cmp_role_or_level pa a
      | _ => false)
  | _ => false

/-- `MetricsCalState` (metrics.rs, not in the provided sources): the single
monotonically increasing read-enforcement counter. -/
structure MetricsCalState where
  total_read_enforce_result : Nat
deriving DecidableEq, Repr

/-- `AFEnforcer`: the engine behind the reader-writer lock plus the metrics state. -/
structure AFEnforcer where
  enforcer : Engine
  metrics_state : MetricsCalState
deriving DecidableEq, Repr

/-- `AFEnforcer::new` — modelled from the spec for the parts outside the provided
sources: `load_group_policies` seeds hierarchy relations (handled inside the
modelled matcher), `MetricsCalState::new()` starts the counter at zero. -/
def AFEnforcer.new (e : Engine) : AFEnforcer :=
  { enforcer := e, metrics_state := { total_read_enforce_result := 0 } }

/-- Oracles describing one operation's nondeterministic environment: elapsed
time at the start of each retry attempt, each non-blocking `try_write` outcome,
and whether the engine call made under the exclusive lock fails. -/
structure WorldOracles where
  elapsed : Nat → Nat
  tryWrite : Nat → Bool
  engineFail : Bool

/-- The exit path of `retry_write()` (default configuration) under the oracles. -/
def lockResult (w : WorldOracles) : RetryResult :=
  (retry_write_with_config RetryConfig.default w.elapsed w.tryWrite).1

/-- The tuple set built by `update_policy`:
`act.policy_acts().map(|act| vec![sub.policy_subject(), obj.policy_object(), act])`. -/
def update_policy_tuples {α : Type} [Acts α] (sub : SubjectType) (obj : ObjectType)
    (act : α) : List PolicyTuple :=
  (Acts.policy_acts act).map (fun a => [sub.policy_subject, obj.policy_object, a])

/-- `AFEnforcer::update_policy`: build the tuples, acquire the exclusive lock via
the retry loop (else `RetryLater`), `add_policies` (engine failure becomes
`AppError::Internal`). Returns the result together with the post-state. -/
def AFEnforcer.update_policy {α : Type} [Acts α] (self : AFEnforcer)
    (w : WorldOracles) (sub : SubjectType) (obj : ObjectType) (act : α) :
    Except AppError Unit × AFEnforcer :=
  let policies := update_policy_tuples sub obj act
  match lockResult w with
  | .acquired _ =>
    if w.engineFail then (.error .Internal, self)
    else (.ok (), { self with enforcer := self.enforcer.add_policies policies })
  | _ => (.error .RetryLater, self)

/-- The client-side subject filter of `policies_for_subject_with_given_object`:
`.filter(|p| p[POLICY_FIELD_INDEX_SUBJECT] == subject_id)`. Rust's indexing
aborts when the tuple is shorter than the index; that abort is `none` here. -/
def filterBySubject (subject_id : String) : List PolicyTuple → Option (List PolicyTuple)
  | [] => some []
  | p :: ps =>
    match p.get? POLICY_FIELD_INDEX_SUBJECT with
    | none => none
    | some s =>
      match filterBySubject subject_id ps with
      | none => none
      | some rest => some (if s = subject_id then p :: rest else rest)

/-- `policies_for_subject_with_given_object`: engine object filter, then the
client-side subject filter. -/
def policies_for_subject_with_given_object (subject : SubjectType)
    (object_type : ObjectType) (e : Engine) : Option (List PolicyTuple) :=
  let subject_id := subject.policy_subject
  let object_type_id := object_type.policy_object
  let policies_related_to_object :=
    e.get_filtered_policy POLICY_FIELD_INDEX_OBJECT object_type_id
  filterBySubject subject_id policies_related_to_object

/-- `AFEnforcer::remove_policy`: read phase under the shared lock computes the
tuple set; the read lock is then released, so the store may be changed by others
before the write phase — `interference` is that arbitrary change; then the
exclusive lock is acquired via the retry loop and `remove_policies` is applied
to exactly the precomputed set. `none` models the Rust abort in the read phase. -/
def AFEnforcer.remove_policy (self : AFEnforcer) (w : WorldOracles)
    (interference : Engine → Engine) (sub : SubjectType) (object_type : ObjectType) :
    Option (Except AppError Unit × AFEnforcer) :=
  match policies_for_subject_with_given_object sub object_type self.enforcer with
  | none => none
  | some policies_for_user_on_object =>
    let e1 := interference self.enforcer
    match lockResult w with
    | .acquired _ =>
      if w.engineFail then some (.error .Internal, { self with enforcer := e1 })
      else some (.ok (),
        { self with enforcer := e1.remove_policies policies_for_user_on_object })
    | _ => some (.error .RetryLater, { self with enforcer := e1 })

/-- Modelled from the spec: `PolicyRequest::new(uid, obj, act).to_policy()`
(request.rs is not in the provided sources) — the single request tuple. -/
def PolicyRequest.to_policy {α : Type} [Acts α] (uid : Int) (obj : ObjectType)
    (act : α) : PolicyTuple :=
  [toString uid, obj.policy_object, Acts.to_enforce_act act]

/-- `AFEnforcer::enforce_policy`: increment the read counter first, build the
request, evaluate under the shared lock; an engine evaluation failure
(`evalFail`) becomes `AppError::Internal`. Returns the result with the post-state. -/
def AFEnforcer.enforce_policy {α : Type} [Acts α] (self : AFEnforcer)
    (evalFail : Bool) (uid : Int) (obj : ObjectType) (act : α) :
    Except AppError Bool × AFEnforcer :=
  let self1 :=
    { self with metrics_state :=
        { total_read_enforce_result :=
            self.metrics_state.total_read_enforce_result + 1 } }
  let policy := PolicyRequest.to_policy uid obj act
  if evalFail then (.error .Internal, self1)
  else (.ok (self1.enforcer.enforce policy), self1)

/-- A freshly initialized enforcer over an empty policy store. -/
def freshEnforcer : AFEnforcer :=
  AFEnforcer.new ⟨[]⟩

/-- Benign environment: no elapsed time, the first `try_write` succeeds, the
engine does not fail. -/
def okOracles : WorldOracles :=
  { elapsed := fun _ => 0, tryWrite := fun _ => true, engineFail := false }

/-- The enforcer after granting `User(1)` role `Member` on `Workspace("w1")`. -/
def memberEnforcer : AFEnforcer :=
  (freshEnforcer.update_policy okOracles (SubjectType.User 1)
    (ObjectType.Workspace "w1") AFRole.Member).2

/-! ## Properties of the retry loop -/

/-- If the loop acquires the guard at attempt `i`, then `i` lies in the iteration
range, the non-blocking try succeeded there before the timeout, and every earlier
attempt in range failed without hitting the timeout. -/
theorem retryGo_acquired (cfg : RetryConfig) (el : Nat → Nat) (tw : Nat → Bool) :
    ∀ (r a d i : Nat), (retryGo cfg el tw r a d).1 = .acquired i →
      a ≤ i ∧ i < a + r ∧ tw i = true ∧ el i < cfg.timeout ∧
      ∀ j, a ≤ j → j < i → tw j = false ∧ el j < cfg.timeout := by
  intro r
  induction r with
  | zero => intro a d i h; simp [retryGo] at h
  | succ r ih =>
    intro a d i h
    by_cases h1 : cfg.timeout ≤ el a
    · simp [retryGo, h1] at h
    · by_cases h2 : tw a = true
      · simp [retryGo, h1, h2] at h
        subst h
        exact ⟨le_refl _, by omega, h2, by omega, fun j hj1 hj2 => by omega⟩
      · by_cases h3 : a < cfg.max_retries - 1
        · simp only [retryGo, if_neg h1, if_pos h3] at h
          rw [if_neg h2] at h
          obtain ⟨ha1, ha2, ha3, ha4, ha5⟩ := ih (a + 1) _ i h
          refine ⟨by omega, by omega, ha3, ha4, ?_⟩
          intro j hj1 hj2
          rcases Nat.eq_or_lt_of_le hj1 with hj | hj
          · subst hj; exact ⟨by simpa using h2, by omega⟩
          · exact ha5 j (by omega) hj2
        · simp only [retryGo, if_neg h1, if_neg h3] at h
          rw [if_neg h2] at h
          obtain ⟨ha1, ha2, ha3, ha4, ha5⟩ := ih (a + 1) d i h
          refine ⟨by omega, by omega, ha3, ha4, ?_⟩
          intro j hj1 hj2
          rcases Nat.eq_or_lt_of_le hj1 with hj | hj
          · subst hj; exact ⟨by simpa using h2, by omega⟩
          · exact ha5 j (by omega) hj2

/-- If the loop exits through the timeout branch at attempt `i`, the timeout had
been reached there, and every earlier attempt in range failed before the timeout. -/
theorem retryGo_timedOut (cfg : RetryConfig) (el : Nat → Nat) (tw : Nat → Bool) :
    ∀ (r a d i : Nat), (retryGo cfg el tw r a d).1 = .timedOut i →
      a ≤ i ∧ i < a + r ∧ cfg.timeout ≤ el i ∧
      ∀ j, a ≤ j → j < i → tw j = false ∧ el j < cfg.timeout := by
  intro r
  induction r with
  | zero => intro a d i h; simp [retryGo] at h
  | succ r ih =>
    intro a d i h
    by_cases h1 : cfg.timeout ≤ el a
    · simp [retryGo, h1] at h
      subst h
      exact ⟨le_refl _, by omega, h1, fun j hj1 hj2 => by omega⟩
    · by_cases h2 : tw a = true
      · simp [retryGo, h1, h2] at h
      · by_cases h3 : a < cfg.max_retries - 1
        · simp only [retryGo, if_neg h1, if_pos h3] at h
          rw [if_neg h2] at h
          obtain ⟨ha1, ha2, ha3, ha4⟩ := ih (a + 1) _ i h
          refine ⟨by omega, by omega, ha3, ?_⟩
          intro j hj1 hj2
          rcases Nat.eq_or_lt_of_le hj1 with hj | hj
          · subst hj; exact ⟨by simpa using h2, by omega⟩
          · exact ha4 j (by omega) hj2
        · simp only [retryGo, if_neg h1, if_neg h3] at h
          rw [if_neg h2] at h
          obtain ⟨ha1, ha2, ha3, ha4⟩ := ih (a + 1) d i h
          refine ⟨by omega, by omega, ha3, ?_⟩
          intro j hj1 hj2
          rcases Nat.eq_or_lt_of_le hj1 with hj | hj
          · subst hj; exact ⟨by simpa using h2, by omega⟩
          · exact ha4 j (by omega) hj2

/-- If the loop falls out of its iteration range, every attempt in range failed
and none of them had reached the timeout. -/
theorem retryGo_exhausted (cfg : RetryConfig) (el : Nat → Nat) (tw : Nat → Bool) :
    ∀ (r a d : Nat), (retryGo cfg el tw r a d).1 = .exhausted →
      ∀ j, a ≤ j → j < a + r → tw j = false ∧ el j < cfg.timeout := by
  intro r
  induction r with
  | zero => intro a d _ j hj1 hj2; omega
  | succ r ih =>
    intro a d h j hj1 hj2
    by_cases h1 : cfg.timeout ≤ el a
    · simp [retryGo, h1] at h
    · by_cases h2 : tw a = true
      · simp [retryGo, h1, h2] at h
      · rcases Nat.eq_or_lt_of_le hj1 with hj | hj
        · subst hj; exact ⟨by simpa using h2, by omega⟩
        · by_cases h3 : a < cfg.max_retries - 1
          · simp only [retryGo, if_neg h1, if_pos h3] at h
            rw [if_neg h2] at h
            exact ih (a + 1) _ h j (by omega) (by omega)
          · simp only [retryGo, if_neg h1, if_neg h3] at h
            rw [if_neg h2] at h
            exact ih (a + 1) d h j (by omega) (by omega)

/-- C1: for every retry configuration (and every timing/contention behaviour),
`retry_write_with_config` — the exclusive-lock acquisition loop used by
`update_policy` and `remove_policy` — returns the write guard as soon as a
non-blocking acquisition attempt succeeds (all earlier attempts failed without
reaching the timeout); otherwise it performs at most `max_retries` attempts,
stops early as soon as elapsed time is at least `timeout`, and in either
exhaustion case returns a `RetryLater` error. -/
theorem claim1_retry_loop (cfg : RetryConfig) (elapsed : Nat → Nat) (tryWrite : Nat → Bool) :
    (∀ i, (retry_write_with_config cfg elapsed tryWrite).1 = .acquired i →
        i < cfg.max_retries ∧ tryWrite i = true ∧ elapsed i < cfg.timeout ∧
        (retry_write_with_config cfg elapsed tryWrite).1.toResult = .ok () ∧
        ∀ j, j < i → tryWrite j = false ∧ elapsed j < cfg.timeout) ∧
    (∀ i, (retry_write_with_config cfg elapsed tryWrite).1 = .timedOut i →
        i < cfg.max_retries ∧ cfg.timeout ≤ elapsed i ∧
        (retry_write_with_config cfg elapsed tryWrite).1.toResult = .error .RetryLater ∧
        ∀ j, j < i → tryWrite j = false ∧ elapsed j < cfg.timeout) ∧
    ((retry_write_with_config cfg elapsed tryWrite).1 = .exhausted →
        (retry_write_with_config cfg elapsed tryWrite).1.toResult = .error .RetryLater ∧
        ∀ j, j < cfg.max_retries → tryWrite j = false ∧ elapsed j < cfg.timeout) := by
  refine ⟨?_, ?_, ?_⟩
  · intro i h
    obtain ⟨h1, h2, h3, h4, h5⟩ := retryGo_acquired cfg elapsed tryWrite cfg.max_retries 0
      cfg.initial_delay i h
    refine ⟨by omega, h3, h4, ?_, fun j hj => h5 j (Nat.zero_le j) hj⟩
    rw [h]; rfl
  · intro i h
    obtain ⟨h1, h2, h3, h4⟩ := retryGo_timedOut cfg elapsed tryWrite cfg.max_retries 0
      cfg.initial_delay i h
    refine ⟨by omega, h3, ?_, fun j hj => h4 j (Nat.zero_le j) hj⟩
    rw [h]; rfl
  · intro h
    refine ⟨by rw [h]; rfl, ?_⟩
    intro j hj
    exact retryGo_exhausted cfg elapsed tryWrite cfg.max_retries 0 cfg.initial_delay h j
      (Nat.zero_le j) (by omega)

/-- Witness for C1: with a 3-attempt configuration where contention clears at
attempt 1, the loop acquires the guard at attempt 1 and attempt 0 had failed. -/
theorem claim1_retry_loop_witness :
    1 < 3 ∧ ((fun i : Nat => i == 1) 1 : Bool) = true ∧ (fun _ : Nat => 0) 1 < 5000 ∧
      (retry_write_with_config ⟨10, 1000, 3, 5000⟩ (fun _ => 0)
        (fun i => i == 1)).1.toResult = .ok () ∧
      ∀ j, j < 1 → ((fun i : Nat => i == 1) j : Bool) = false ∧ (fun _ : Nat => 0) j < 5000 :=
  (claim1_retry_loop ⟨10, 1000, 3, 5000⟩ (fun _ => 0) (fun i => i == 1)).1 1 (by decide)

/-- Once the attempt index has reached `max_retries - 1`, no further sleep occurs. -/
theorem retryGo_log_nil (cfg : RetryConfig) (el : Nat → Nat) (tw : Nat → Bool) :
    ∀ (r a d : Nat), cfg.max_retries - 1 ≤ a → (retryGo cfg el tw r a d).2 = [] := by
  intro r
  induction r with
  | zero => intro a d _; simp [retryGo]
  | succ r ih =>
    intro a d h
    by_cases h1 : cfg.timeout ≤ el a
    · simp [retryGo, h1]
    · by_cases h2 : tw a = true
      · simp [retryGo, h1, h2]
      · have h3 : ¬ a < cfg.max_retries - 1 := by omega
        simp only [retryGo, if_neg h1, if_neg h3]
        rw [if_neg h2]
        exact ih (a + 1) d (by omega)

/-- The sleep log is empty or starts with an event at the current attempt index
and the current nominal delay. -/
theorem retryGo_log_head (cfg : RetryConfig) (el : Nat → Nat) (tw : Nat → Bool) :
    ∀ (r a d : Nat), (retryGo cfg el tw r a d).2 = [] ∨
      ∃ e rest, (retryGo cfg el tw r a d).2 = e :: rest ∧ e.attempt = a ∧ e.nominal = d := by
  intro r
  induction r with
  | zero => intro a d; left; simp [retryGo]
  | succ r ih =>
    intro a d
    by_cases h1 : cfg.timeout ≤ el a
    · left; simp [retryGo, h1]
    · by_cases h2 : tw a = true
      · left; simp [retryGo, h1, h2]
      · by_cases h3 : a < cfg.max_retries - 1
        · right
          refine ⟨⟨a, d, d + jitter d a⟩, (retryGo cfg el tw r (a + 1)
            (min (d * 2) cfg.max_delay)).2, ?_, rfl, rfl⟩
          simp only [retryGo, if_neg h1, if_pos h3]
          rw [if_neg h2]
        · left
          simp only [retryGo, if_neg h1, if_neg h3]
          rw [if_neg h2]
          exact retryGo_log_nil cfg el tw r (a + 1) d (by omega)

/-- Full characterisation of the sleep log: every sleep follows a failed attempt
made before the timeout with further attempts remaining, its actual duration is
the nominal delay plus the jitter, the first sleep uses the incoming delay, and
consecutive sleeps double the nominal delay capped at `max_delay`. -/
theorem retryGo_log_spec (cfg : RetryConfig) (el : Nat → Nat) (tw : Nat → Bool) :
    ∀ (r a d : Nat),
      (∀ e ∈ (retryGo cfg el tw r a d).2,
          tw e.attempt = false ∧ e.attempt + 1 < cfg.max_retries ∧
          e.actual = e.nominal + jitter e.nominal e.attempt ∧ el e.attempt < cfg.timeout) ∧
      (∀ e, ((retryGo cfg el tw r a d).2).head? = some e → e.attempt = a ∧ e.nominal = d) ∧
      List.Chain' (fun x y => y.attempt = x.attempt + 1 ∧
          y.nominal = min (x.nominal * 2) cfg.max_delay) (retryGo cfg el tw r a d).2 := by
  intro r
  induction r with
  | zero => intro a d; refine ⟨?_, ?_, ?_⟩ <;> simp [retryGo]
  | succ r ih =>
    intro a d
    by_cases h1 : cfg.timeout ≤ el a
    · refine ⟨?_, ?_, ?_⟩ <;> simp [retryGo, h1]
    · by_cases h2 : tw a = true
      · refine ⟨?_, ?_, ?_⟩ <;> simp [retryGo, h1, h2]
      · by_cases h3 : a < cfg.max_retries - 1
        · have hlog : (retryGo cfg el tw (r + 1) a d).2 =
            (⟨a, d, d + jitter d a⟩ : SleepEvent) ::
              (retryGo cfg el tw r (a + 1) (min (d * 2) cfg.max_delay)).2 := by
            simp only [retryGo, if_neg h1, if_pos h3]
            rw [if_neg h2]
          obtain ⟨ihMem, ihHead, ihChain⟩ := ih (a + 1) (min (d * 2) cfg.max_delay)
          rw [hlog]
          refine ⟨?_, ?_, ?_⟩
          · intro e he
            rcases List.mem_cons.mp he with he0 | he1
            · subst he0
              refine ⟨by simpa using h2, ?_, rfl, ?_⟩
              · show a + 1 < cfg.max_retries
                omega
              · show el a < cfg.timeout
                omega
            · exact ihMem e he1
          · intro e he
            rw [List.head?_cons] at he
            injection he with he
            subst he
            exact ⟨rfl, rfl⟩
          · rw [List.chain'_cons']
            refine ⟨?_, ihChain⟩
            intro y hy
            rw [Option.mem_def] at hy
            obtain ⟨hy1, hy2⟩ := ihHead y hy
            exact ⟨by rw [hy1], by rw [hy2]⟩
        · have hlog : (retryGo cfg el tw (r + 1) a d).2 = [] := by
            simp only [retryGo, if_neg h1, if_neg h3]
            rw [if_neg h2]
            exact retryGo_log_nil cfg el tw r (a + 1) d (by omega)
          rw [hlog]
          refine ⟨?_, ?_, ?_⟩ <;> simp

/-- C5: in the write-acquisition retry loop, the nominal delay starts at
`initial_delay` (the first sleep, if any, uses it, at attempt 0), a sleep happens
after a failed attempt only when further attempts remain, and after each such
sleep the nominal delay is doubled but never exceeds `max_delay`. -/
theorem claim5_backoff (cfg : RetryConfig) (elapsed : Nat → Nat) (tryWrite : Nat → Bool) :
    (∀ e ∈ (retry_write_with_config cfg elapsed tryWrite).2,
        tryWrite e.attempt = false ∧ e.attempt + 1 < cfg.max_retries) ∧
    (∀ e, ((retry_write_with_config cfg elapsed tryWrite).2).head? = some e →
        e.nominal = cfg.initial_delay ∧ e.attempt = 0) ∧
    List.Chain' (fun x y => y.attempt = x.attempt + 1 ∧
        y.nominal = min (x.nominal * 2) cfg.max_delay ∧ y.nominal ≤ cfg.max_delay)
      (retry_write_with_config cfg elapsed tryWrite).2 := by
  obtain ⟨hMem, hHead, hChain⟩ := retryGo_log_spec cfg elapsed tryWrite cfg.max_retries 0
    cfg.initial_delay
  refine ⟨?_, ?_, ?_⟩
  · intro e he
    obtain ⟨m1, m2, _, _⟩ := hMem e he
    exact ⟨m1, m2⟩
  · intro e he
    obtain ⟨hh1, hh2⟩ := hHead e he
    exact ⟨hh2, hh1⟩
  · refine List.Chain'.imp ?_ hChain
    intro x y hxy
    exact ⟨hxy.1, hxy.2, by rw [hxy.2]; exact Nat.min_le_right _ _⟩

/-- Witness for C5: under the default configuration with permanent contention,
the first sleep follows failed attempt 0 with attempts remaining. -/
theorem claim5_backoff_witness :
    ((fun _ : Nat => false) (SleepEvent.attempt ⟨0, 10, 10⟩) = false ∧
      SleepEvent.attempt ⟨0, 10, 10⟩ + 1 < RetryConfig.default.max_retries) :=
  (claim5_backoff RetryConfig.default (fun _ => 0) (fun _ => false)).1 ⟨0, 10, 10⟩ (by decide)

/-- C6 counterexample: under the default configuration with permanent contention
(a run reachable by `update_policy`/`remove_policy`), the sleep after attempt 7
has nominal delay 1000ms but actually sleeps 1119ms — a deviation of 119ms,
outside the claimed `delay ± 10%` band (1119 > 1000 + 1000/10). -/
theorem claim6_jitter_counterexample :
    (⟨7, 1000, 1119⟩ : SleepEvent) ∈
      (retry_write_with_config RetryConfig.default (fun _ => 0) (fun _ => false)).2 ∧
    jitter 1000 7 = 119 ∧ ¬ (1119 ≤ 1000 + 1000 / 10) := by
  refine ⟨by decide, by decide, by decide⟩

/-- C6 amended: the jitter added before sleeping is a deterministic function of
the current nominal delay and the attempt index (`jitter`), and the actual sleep
duration is never below the nominal delay and exceeds it by less than
`2 * max(delay/10, 1)` ms — i.e. by less than roughly 20% of the delay (not
within a ±10% band). -/
theorem claim6_jitter_bound (cfg : RetryConfig) (elapsed : Nat → Nat)
    (tryWrite : Nat → Bool) :
    ∀ e ∈ (retry_write_with_config cfg elapsed tryWrite).2,
      e.actual = e.nominal + jitter e.nominal e.attempt ∧
      e.nominal ≤ e.actual ∧
      e.actual < e.nominal + max (jitterMs e.nominal) 1 * 2 := by
  intro e he
  obtain ⟨hMem, _, _⟩ := retryGo_log_spec cfg elapsed tryWrite cfg.max_retries 0
    cfg.initial_delay
  obtain ⟨_, _, hact, _⟩ := hMem e he
  have hjit : jitter e.nominal e.attempt < max (jitterMs e.nominal) 1 * 2 := by
    refine Nat.lt_of_lt_of_le (Nat.mod_lt _ ?_) (le_refl _)
    have : 1 ≤ max (jitterMs e.nominal) 1 := Nat.le_max_right _ _
    omega
  exact ⟨hact, by omega, by omega⟩

/-- Witness for C6 amended: the first sleep of the default-configuration run
sleeps exactly its nominal 10ms, within the proven band. -/
theorem claim6_jitter_bound_witness :
    SleepEvent.actual ⟨0, 10, 10⟩ =
        SleepEvent.nominal ⟨0, 10, 10⟩ +
          jitter (SleepEvent.nominal ⟨0, 10, 10⟩) (SleepEvent.attempt ⟨0, 10, 10⟩) ∧
      SleepEvent.nominal ⟨0, 10, 10⟩ ≤ SleepEvent.actual ⟨0, 10, 10⟩ ∧
      SleepEvent.actual ⟨0, 10, 10⟩ <
        SleepEvent.nominal ⟨0, 10, 10⟩ + max (jitterMs (SleepEvent.nominal ⟨0, 10, 10⟩)) 1 * 2 :=
  claim6_jitter_bound RetryConfig.default (fun _ => 0) (fun _ => false) ⟨0, 10, 10⟩ (by decide)

/-- C3: after `update_policy(User(1), Workspace("w1"), Role::Member)` succeeds on
a freshly initialized enforcer, `enforce_policy` for user 1 on `Workspace("w1")`
returns true for `Write` and `Read`, false for `Delete`, true for `Role::Member`,
false for `Role::Owner`, true for access levels `ReadOnly`, `ReadAndComment`,
`ReadAndWrite`, and false for `FullAccess`. -/
theorem claim3_member_scenario :
    (freshEnforcer.update_policy okOracles (SubjectType.User 1)
        (ObjectType.Workspace "w1") AFRole.Member).1 = .ok () ∧
    (memberEnforcer.enforce_policy false 1 (ObjectType.Workspace "w1") Action.Write).1 =
      .ok true ∧
    (memberEnforcer.enforce_policy false 1 (ObjectType.Workspace "w1") Action.Read).1 =
      .ok true ∧
    (memberEnforcer.enforce_policy false 1 (ObjectType.Workspace "w1") Action.Delete).1 =
      .ok false ∧
    (memberEnforcer.enforce_policy false 1 (ObjectType.Workspace "w1") AFRole.Member).1 =
      .ok true ∧
    (memberEnforcer.enforce_policy false 1 (ObjectType.Workspace "w1") AFRole.Owner).1 =
      .ok false ∧
    (memberEnforcer.enforce_policy false 1 (ObjectType.Workspace "w1")
        AFAccessLevel.ReadOnly).1 = .ok true ∧
    (memberEnforcer.enforce_policy false 1 (ObjectType.Workspace "w1")
        AFAccessLevel.ReadAndComment).1 = .ok true ∧
    (memberEnforcer.enforce_policy false 1 (ObjectType.Workspace "w1")
        AFAccessLevel.ReadAndWrite).1 = .ok true ∧
    (memberEnforcer.enforce_policy false 1 (ObjectType.Workspace "w1")
        AFAccessLevel.FullAccess).1 = .ok false :=
  ⟨rfl, rfl, rfl, rfl, rfl, rfl, rfl, rfl, rfl, rfl⟩

/-- A tuple is returned by the engine's field filter iff it is stored and its
field at the given index equals the value. -/
theorem mem_get_filtered_policy (e : Engine) (i : Nat) (v : String) (p : PolicyTuple) :
    p ∈ e.get_filtered_policy i v ↔ p ∈ e.policies ∧ p.get? i = some v := by
  simp [Engine.get_filtered_policy, List.mem_filter]

/-- A tuple survives `remove_policies` iff it was stored and is not among the
tuples being removed. -/
theorem mem_remove_policies (e : Engine) (ts : List PolicyTuple) (p : PolicyTuple) :
    p ∈ (e.remove_policies ts).policies ↔ p ∈ e.policies ∧ ¬ p ∈ ts := by
  simp [Engine.remove_policies, List.mem_filter]

/-- When the client-side subject filter completes without an out-of-bounds
index, its output contains exactly the input tuples whose subject field equals
the subject id. -/
theorem filterBySubject_some (sid : String) :
    ∀ (ps l : List PolicyTuple), filterBySubject sid ps = some l →
      ∀ p, p ∈ l ↔ p ∈ ps ∧ p.get? POLICY_FIELD_INDEX_SUBJECT = some sid := by
  intro ps
  induction ps with
  | nil =>
    intro l h p
    simp only [filterBySubject] at h
    injection h with h
    subst h
    simp
  | cons q ps ih =>
    intro l h p
    simp only [filterBySubject] at h
    cases hq : q.get? POLICY_FIELD_INDEX_SUBJECT with
    | none => rw [hq] at h; cases h
    | some s =>
      rw [hq] at h
      cases hrest : filterBySubject sid ps with
      | none => rw [hrest] at h; cases h
      | some rest =>
        rw [hrest] at h
        injection h with h
        subst h
        by_cases hs : s = sid
        · rw [if_pos hs]
          constructor
          · intro hp
            rcases List.mem_cons.mp hp with hp0 | hp1
            · subst hp0
              exact ⟨List.mem_cons_self _ _, by rw [hq, hs]⟩
            · obtain ⟨hm, hg⟩ := (ih rest hrest p).mp hp1
              exact ⟨List.mem_cons_of_mem _ hm, hg⟩
          · intro hp
            rcases List.mem_cons.mp hp.1 with hp0 | hp1
            · subst hp0
              exact List.mem_cons_self _ _
            · exact List.mem_cons_of_mem _ ((ih rest hrest p).mpr ⟨hp1, hp.2⟩)
        · rw [if_neg hs]
          constructor
          · intro hp
            obtain ⟨hm, hg⟩ := (ih rest hrest p).mp hp
            exact ⟨List.mem_cons_of_mem _ hm, hg⟩
          · intro hp
            rcases List.mem_cons.mp hp.1 with hp0 | hp1
            · subst hp0
              rw [hq] at hp
              have := hp.2
              injection this with this
              exact absurd this hs
            · exact (ih rest hrest p).mpr ⟨hp1, hp.2⟩

/-- C2: when the read phase of `remove_policy` completes, the tuple set it
computes under the shared read lock is exactly the set of stored tuples whose
object field is the object type's policy-object string and whose subject field
is the subject's policy-subject string; the read lock is released before the
write attempt (arbitrary `interference` may change the store in between), and
after acquiring the exclusive lock via the retry loop, exactly that precomputed
set is passed to the engine's remove operation. -/
theorem claim2_remove_policy (enf : AFEnforcer) (w : WorldOracles)
    (interference : Engine → Engine) (sub : SubjectType) (object_type : ObjectType)
    (tuples : List PolicyTuple)
    (hread : policies_for_subject_with_given_object sub object_type enf.enforcer =
      some tuples) :
    (∀ p, p ∈ tuples ↔ p ∈ enf.enforcer.policies ∧
        p.get? POLICY_FIELD_INDEX_OBJECT = some object_type.policy_object ∧
        p.get? POLICY_FIELD_INDEX_SUBJECT = some sub.policy_subject) ∧
    (∀ i, lockResult w = .acquired i → w.engineFail = false →
        enf.remove_policy w interference sub object_type =
          some (.ok (), { enf with enforcer :=
            (interference enf.enforcer).remove_policies tuples })) ∧
    (∀ p, p ∈ ((interference enf.enforcer).remove_policies tuples).policies ↔
        p ∈ (interference enf.enforcer).policies ∧ ¬ p ∈ tuples) := by
  refine ⟨?_, ?_, ?_⟩
  · intro p
    have hchar := filterBySubject_some sub.policy_subject
      (enf.enforcer.get_filtered_policy POLICY_FIELD_INDEX_OBJECT object_type.policy_object)
      tuples hread p
    rw [hchar, mem_get_filtered_policy]
    tauto
  · intro i hl hf
    simp only [AFEnforcer.remove_policy, hread, hl, hf]
    rw [if_neg (by simp [hf])]
  · intro p
    exact mem_remove_policies _ _ p

/-- A concrete three-tuple store used by witnesses: user 1 is a member of
workspaces w1 and w2, user 2 owns w1. -/
def sampleEngine : Engine :=
  ⟨[["1", "workspace::w1", "role:member"],
    ["2", "workspace::w1", "role:owner"],
    ["1", "workspace::w2", "role:member"]]⟩

/-- The enforcer wrapping `sampleEngine`. -/
def sampleEnforcer : AFEnforcer :=
  AFEnforcer.new sampleEngine

/-- Witness for C2: removing user 1's policies on workspace w1 from the sample
store removes exactly the one matching tuple. -/
theorem claim2_remove_policy_witness :
    sampleEnforcer.remove_policy okOracles id (SubjectType.User 1)
        (ObjectType.Workspace "w1") =
      some (.ok (), { sampleEnforcer with enforcer :=
        ((id sampleEnforcer.enforcer).remove_policies
          [["1", "workspace::w1", "role:member"]]) }) :=
  (claim2_remove_policy sampleEnforcer okOracles id (SubjectType.User 1)
    (ObjectType.Workspace "w1") [["1", "workspace::w1", "role:member"]] rfl).2.1 0 rfl rfl

/-- Oracles for an operation where the lock is acquired immediately but the
engine call performed under it fails. -/
def engineFailOracles : WorldOracles :=
  { elapsed := fun _ => 0, tryWrite := fun _ => true, engineFail := true }

/-- C4: `update_policy` builds one policy tuple per expanded action string of the
action's capability expansion, each tuple being exactly
`[subject string, object string, action string]` (so all tuples share the same
subject and object), then adds the whole set through the engine under the
exclusive lock; an engine failure during the add is returned as an `Internal`
error, and a `RetryLater` error occurs exactly when the lock is never acquired. -/
theorem claim4_update_policy {α : Type} [Acts α] (enf : AFEnforcer) (w : WorldOracles)
    (sub : SubjectType) (obj : ObjectType) (act : α) :
    (∀ t, t ∈ update_policy_tuples sub obj act ↔
        ∃ a ∈ Acts.policy_acts act, t = [sub.policy_subject, obj.policy_object, a]) ∧
    (update_policy_tuples sub obj act).length = (Acts.policy_acts act).length ∧
    (∀ i, lockResult w = .acquired i → w.engineFail = false →
        enf.update_policy w sub obj act = (.ok (), { enf with enforcer :=
          (enf.enforcer.add_policies (update_policy_tuples sub obj act)) })) ∧
    (∀ i, lockResult w = .acquired i → w.engineFail = true →
        enf.update_policy w sub obj act = (.error .Internal, enf)) ∧
    ((enf.update_policy w sub obj act).1 = .error .RetryLater ↔
        ∀ i, lockResult w ≠ .acquired i) := by
  refine ⟨?_, ?_, ?_, ?_, ?_⟩
  · intro t
    simp only [update_policy_tuples, List.mem_map]
    constructor
    · intro ⟨a, ha, ht⟩
      exact ⟨a, ha, ht.symm⟩
    · intro ⟨a, ha, ht⟩
      exact ⟨a, ha, ht.symm⟩
  · exact List.length_map _ _
  · intro i hl hf
    simp only [AFEnforcer.update_policy, hl, hf]
    rw [if_neg (by simp [hf])]
  · intro i hl hf
    simp only [AFEnforcer.update_policy, hl, hf]
    simp
  · cases hl : lockResult w with
    | acquired i =>
      constructor
      · intro h
        exfalso
        cases hf : w.engineFail
        · have heq : enf.update_policy w sub obj act = (.ok (), { enf with enforcer :=
              (enf.enforcer.add_policies (update_policy_tuples sub obj act)) }) := by
            simp only [AFEnforcer.update_policy, hl, hf]
            simp
          rw [heq] at h
          cases h
        · have heq : enf.update_policy w sub obj act = (.error .Internal, enf) := by
            simp only [AFEnforcer.update_policy, hl, hf]
            simp
          rw [heq] at h
          injection h with h
          cases h
      · intro h
        exact absurd rfl (h i)
    | timedOut i =>
      constructor
      · intro _ j hj
        cases hj
      · intro _
        simp [AFEnforcer.update_policy, hl]
    | exhausted =>
      constructor
      · intro _ j hj
        cases hj
      · intro _
        simp [AFEnforcer.update_policy, hl]

/-- Witness for C4: with the lock acquired immediately and the engine add
failing, `update_policy` returns the `Internal` error and leaves the state. -/
theorem claim4_update_policy_witness :
    freshEnforcer.update_policy engineFailOracles (SubjectType.User 1)
        (ObjectType.Workspace "w1") AFRole.Member = (.error .Internal, freshEnforcer) :=
  (claim4_update_policy freshEnforcer engineFailOracles (SubjectType.User 1)
    (ObjectType.Workspace "w1") AFRole.Member).2.2.2.1 0 rfl rfl

/-- C7: `enforce_policy` never returns a `RetryLater` error — its result is
either `Ok(bool)` from the engine's evaluation or an `Internal` error wrapping
the engine's evaluation failure; the read path involves no retry loop (the
function is not parametrised by lock-retry behaviour at all). -/
theorem claim7_enforce_no_retrylater {α : Type} [Acts α] (enf : AFEnforcer)
    (evalFail : Bool) (uid : Int) (obj : ObjectType) (act : α) :
    (enf.enforce_policy evalFail uid obj act).1 ≠ .error .RetryLater ∧
    (evalFail = false → (enf.enforce_policy evalFail uid obj act).1 =
        .ok (enf.enforcer.enforce (PolicyRequest.to_policy uid obj act))) ∧
    (evalFail = true → (enf.enforce_policy evalFail uid obj act).1 = .error .Internal) := by
  cases evalFail
  · refine ⟨?_, ?_, ?_⟩
    · intro h
      exact Except.noConfusion h
    · intro _
      rfl
    · intro h
      cases h
  · refine ⟨?_, ?_, ?_⟩
    · intro h
      injection h with h
      cases h
    · intro h
      cases h
    · intro _
      rfl

/-- Witness for C7: an engine evaluation failure surfaces as `Internal`. -/
theorem claim7_enforce_no_retrylater_witness :
    (memberEnforcer.enforce_policy true 1 (ObjectType.Workspace "w1") Action.Read).1 =
      .error .Internal :=
  (claim7_enforce_no_retrylater memberEnforcer true 1 (ObjectType.Workspace "w1")
    Action.Read).2.2 rfl

/-- C8: the read-enforcement counter is incremented by exactly one on every
`enforce_policy` invocation, whether or not evaluation fails (the increment
precedes evaluation); `update_policy`, `remove_policy` and construction never
change it (construction initializes it to zero). -/
theorem claim8_metrics {α : Type} [Acts α] (enf : AFEnforcer) (w : WorldOracles)
    (interference : Engine → Engine) (evalFail : Bool) (uid : Int) (obj : ObjectType)
    (act : α) (sub : SubjectType) (object_type : ObjectType) :
    (enf.enforce_policy evalFail uid obj act).2.metrics_state.total_read_enforce_result =
      enf.metrics_state.total_read_enforce_result + 1 ∧
    (enf.update_policy w sub obj act).2.metrics_state.total_read_enforce_result =
      enf.metrics_state.total_read_enforce_result ∧
    (∀ r, enf.remove_policy w interference sub object_type = some r →
        r.2.metrics_state.total_read_enforce_result =
          enf.metrics_state.total_read_enforce_result) ∧
    (AFEnforcer.new enf.enforcer).metrics_state.total_read_enforce_result = 0 := by
  refine ⟨?_, ?_, ?_, rfl⟩
  · cases evalFail <;> rfl
  · cases hl : lockResult w with
    | acquired i =>
      cases hf : w.engineFail
      · simp [AFEnforcer.update_policy, hl, hf]
      · simp [AFEnforcer.update_policy, hl, hf]
    | timedOut i => simp [AFEnforcer.update_policy, hl]
    | exhausted => simp [AFEnforcer.update_policy, hl]
  · intro r hr
    cases hread : policies_for_subject_with_given_object sub object_type enf.enforcer with
    | none => simp [AFEnforcer.remove_policy, hread] at hr
    | some tuples =>
      cases hl : lockResult w with
      | acquired i =>
        cases hf : w.engineFail
        · simp [AFEnforcer.remove_policy, hread, hl, hf] at hr
          rw [← hr]
        · simp [AFEnforcer.remove_policy, hread, hl, hf] at hr
          rw [← hr]
      | timedOut i =>
        simp [AFEnforcer.remove_policy, hread, hl] at hr
        rw [← hr]
      | exhausted =>
        simp [AFEnforcer.remove_policy, hread, hl] at hr
        rw [← hr]

/-- Witness for C8: a successful removal on the sample store leaves the counter
at its previous value. -/
theorem claim8_metrics_witness :
    ((Except.ok (), { sampleEnforcer with enforcer :=
        ((id sampleEnforcer.enforcer).remove_policies
          [["1", "workspace::w1", "role:member"]]) }) :
      Except AppError Unit × AFEnforcer).2.metrics_state.total_read_enforce_result =
      sampleEnforcer.metrics_state.total_read_enforce_result :=
  (@claim8_metrics Action _ sampleEnforcer okOracles id false 1 (ObjectType.Workspace "w1")
    Action.Read (SubjectType.User 1) (ObjectType.Workspace "w1")).2.2.1 _ rfl

/-- Anything already stored survives folding further insertions. -/
theorem subset_foldl_insertTuple :
    ∀ (ts s : List PolicyTuple) (p : PolicyTuple), p ∈ s → p ∈ ts.foldl insertTuple s := by
  intro ts
  induction ts with
  | nil => intro s p hp; simpa using hp
  | cons t ts ih =>
    intro s p hp
    have hstep : p ∈ insertTuple s t := by
      unfold insertTuple
      split
      · exact hp
      · exact List.mem_append_left _ hp
    simpa using ih (insertTuple s t) p hstep

/-- Every inserted tuple is present after the fold. -/
theorem mem_foldl_insertTuple :
    ∀ (ts s : List PolicyTuple) (p : PolicyTuple), p ∈ ts → p ∈ ts.foldl insertTuple s := by
  intro ts
  induction ts with
  | nil => intro s p hp; cases hp
  | cons t ts ih =>
    intro s p hp
    rcases List.mem_cons.mp hp with hp0 | hp1
    · subst hp0
      have hstep : p ∈ insertTuple s p := by
        unfold insertTuple
        split
        · next hmem => exact hmem
        · exact List.mem_append_right _ (List.mem_singleton.mpr rfl)
      simpa using subset_foldl_insertTuple ts (insertTuple s p) p hstep
    · simpa using ih (insertTuple s t) p hp1

/-- Inserting tuples that are all already present changes nothing. -/
theorem foldl_insertTuple_eq :
    ∀ (ts s : List PolicyTuple), (∀ p ∈ ts, p ∈ s) → ts.foldl insertTuple s = s := by
  intro ts
  induction ts with
  | nil => intro s _; rfl
  | cons t ts ih =>
    intro s h
    have ht : insertTuple s t = s := by
      unfold insertTuple
      exact if_pos (h t (List.mem_cons_self _ _))
    calc (t :: ts).foldl insertTuple s = ts.foldl insertTuple (insertTuple s t) := by
          simp [List.foldl_cons]
      _ = ts.foldl insertTuple s := by rw [ht]
      _ = s := ih s (fun p hp => h p (List.mem_cons_of_mem _ hp))

/-- Adding the same tuple set twice equals adding it once. -/
theorem add_policies_idem (e : Engine) (ts : List PolicyTuple) :
    (e.add_policies ts).add_policies ts = e.add_policies ts := by
  unfold Engine.add_policies
  congr 1
  exact foldl_insertTuple_eq ts _ (fun p hp => mem_foldl_insertTuple ts e.policies p hp)

/-- C9: calling `update_policy` twice in succession with identical arguments
(no interleaved operations), both succeeding, leaves the enforcer state — and
hence the answer of every `enforce_policy` query — identical to the state after
the first call: no observable duplicate-tuple effect. -/
theorem claim9_idempotent {α : Type} [Acts α] (enf enf1 enf2 : AFEnforcer)
    (w1 w2 : WorldOracles) (sub : SubjectType) (obj : ObjectType) (act : α)
    (h1 : enf.update_policy w1 sub obj act = (.ok (), enf1))
    (h2 : enf1.update_policy w2 sub obj act = (.ok (), enf2)) :
    enf2 = enf1 ∧
    ∀ (β : Type) [Acts β] (evalFail : Bool) (uid : Int) (obj2 : ObjectType) (act2 : β),
      (enf2.enforce_policy evalFail uid obj2 act2).1 =
        (enf1.enforce_policy evalFail uid obj2 act2).1 := by
  have key : ∀ (e e' : AFEnforcer) (w : WorldOracles),
      e.update_policy w sub obj act = (.ok (), e') →
      e' = { e with enforcer :=
        (e.enforcer.add_policies (update_policy_tuples sub obj act)) } := by
    intro e e' w h
    cases hl : lockResult w with
    | acquired i =>
      cases hf : w.engineFail
      · have heq : e.update_policy w sub obj act = (.ok (), { e with enforcer :=
            (e.enforcer.add_policies (update_policy_tuples sub obj act)) }) := by
          simp [AFEnforcer.update_policy, hl, hf]
        rw [heq] at h
        exact (congrArg Prod.snd h).symm
      · have heq : e.update_policy w sub obj act = (.error .Internal, e) := by
          simp [AFEnforcer.update_policy, hl, hf]
        rw [heq] at h
        exact absurd (congrArg Prod.fst h) (by simp)
    | timedOut i =>
      have heq : e.update_policy w sub obj act = (.error .RetryLater, e) := by
        simp [AFEnforcer.update_policy, hl]
      rw [heq] at h
      exact absurd (congrArg Prod.fst h) (by simp)
    | exhausted =>
      have heq : e.update_policy w sub obj act = (.error .RetryLater, e) := by
        simp [AFEnforcer.update_policy, hl]
      rw [heq] at h
      exact absurd (congrArg Prod.fst h) (by simp)
  have e1eq := key enf enf1 w1 h1
  have e2eq := key enf1 enf2 w2 h2
  have hmid : enf2 = { enf with enforcer :=
      ((enf.enforcer.add_policies (update_policy_tuples sub obj act)).add_policies
        (update_policy_tuples sub obj act)) } := by
    rw [e2eq, e1eq]
  have hfinal : enf2 = enf1 := by
    rw [hmid, add_policies_idem, ← e1eq]
  refine ⟨hfinal, ?_⟩
  intro β instβ evalFail uid obj2 act2
  rw [hfinal]

/-- Witness for C9: granting `Member` on w1 to user 1 twice from the fresh
enforcer produces the same state as granting it once. -/
theorem claim9_idempotent_witness :
    (memberEnforcer.update_policy okOracles (SubjectType.User 1)
      (ObjectType.Workspace "w1") AFRole.Member).2 = memberEnforcer :=
  (claim9_idempotent freshEnforcer memberEnforcer
    ((memberEnforcer.update_policy okOracles (SubjectType.User 1)
      (ObjectType.Workspace "w1") AFRole.Member).2) okOracles okOracles
    (SubjectType.User 1) (ObjectType.Workspace "w1") AFRole.Member rfl rfl).1

/-- The client-side subject filter completes without an out-of-bounds index
exactly when every tuple has more fields than the subject index. -/
theorem filterBySubject_isSome (sid : String) :
    ∀ ps : List PolicyTuple, (filterBySubject sid ps).isSome = true ↔
      ∀ p ∈ ps, POLICY_FIELD_INDEX_SUBJECT < p.length := by
  intro ps
  induction ps with
  | nil => simp [filterBySubject]
  | cons q ps ih =>
    simp only [filterBySubject]
    split
    · next hq =>
      simp only [Option.isSome_none]
      constructor
      · intro h
        cases h
      · intro h
        exfalso
        have hlt := h q (List.mem_cons_self _ _)
        rw [List.get?_eq_none] at hq
        omega
    · next s hq =>
      split
      · next hrec =>
        simp only [Option.isSome_none]
        constructor
        · intro h
          cases h
        · intro h
          have hsome : (filterBySubject sid ps).isSome = true :=
            ih.mpr (fun p hp => h p (List.mem_cons_of_mem _ hp))
          rw [hrec] at hsome
          cases hsome
      · next rest hrec =>
        simp only [Option.isSome_some, true_iff]
        intro p hp
        rcases List.mem_cons.mp hp with hp0 | hp1
        · subst hp0
          by_contra hc
          rw [List.get?_eq_none.mpr (by omega)] at hq
          cases hq
        · have hsome : (filterBySubject sid ps).isSome = true := by
            rw [hrec]; rfl
          exact ih.mp hsome p hp1

/-- C10: the read phase of `remove_policy` (the client-side subject filter over
the engine's object filter) is total exactly when every tuple returned by the
object filter has more fields than the subject index; a shorter tuple makes the
indexing in the filter go out of bounds. -/
theorem claim10_subject_index (sub : SubjectType) (object_type : ObjectType) (e : Engine) :
    (policies_for_subject_with_given_object sub object_type e).isSome = true ↔
      ∀ p ∈ e.get_filtered_policy POLICY_FIELD_INDEX_OBJECT object_type.policy_object,
        POLICY_FIELD_INDEX_SUBJECT < p.length :=
  filterBySubject_isSome sub.policy_subject _

/-- Witness for C10: on the sample store every tuple has three fields, so the
read phase completes. -/
theorem claim10_subject_index_witness :
    (policies_for_subject_with_given_object (SubjectType.User 1)
      (ObjectType.Workspace "w1") sampleEngine).isSome = true :=
  (claim10_subject_index (SubjectType.User 1) (ObjectType.Workspace "w1")
    sampleEngine).mpr (by decide)

end AccessControl
